import Mathlib

/-!
Verification development for the maggrab ingestion daemon.

The definitions below are a shallow embedding of the durable store
(src/unnamed/part_005, class FileStorage), the scheduler and pipeline
(src/server/scraper.ts), written as pure Lean functions.  Timestamps are
modelled as Int (epoch milliseconds), JS arrays as List, and stateful
operations as functions returning the updated stored value.
-/

set_option maxHeartbeats 1000000
set_option maxRecDepth 100000

namespace Maggrab

/-! ## Data model (shared/schema.ts) -/

/-- ProcessedUrl record (part_005 lines 18-21). -/
structure ProcessedUrl where
  url : String
  timestamp : Int
deriving DecidableEq

/-- ScrapeLog record (logSchema in shared/schema.ts). -/
structure ScrapeLog where
  id : String
  timestamp : Int
  level : String
  message : String
  source : String
deriving DecidableEq

/-- InsertLog: a log entry before id and timestamp are assigned. -/
structure InsertLog where
  level : String
  message : String
  source : String
deriving DecidableEq

/-- ExtractedItem record (extractedItemSchema in shared/schema.ts). -/
structure ExtractedItem where
  id : String
  feedId : String
  articleTitle : String
  articleUrl : String
  downloadUrl : String
  host : String
  timestamp : Int
  submitted : Bool
deriving DecidableEq

/-- InsertExtractedItem: an extracted item before id and timestamp are assigned. -/
structure InsertExtractedItem where
  feedId : String
  articleTitle : String
  articleUrl : String
  downloadUrl : String
  host : String
  submitted : Bool
deriving DecidableEq

/-- GrabbedItem record (grabbedItemSchema in shared/schema.ts). -/
structure GrabbedItem where
  id : String
  feedId : String
  feedName : String
  title : String
  link : String
  pubDate : Option String
  hasDownload : Bool
  timestamp : Int
deriving DecidableEq

/-- InsertGrabbedItem: a grabbed item before id and timestamp are assigned. -/
structure InsertGrabbedItem where
  feedId : String
  feedName : String
  title : String
  link : String
  pubDate : Option String
  hasDownload : Bool
deriving DecidableEq

/-- Stats counters (statsSchema in shared/schema.ts). -/
structure Stats where
  totalScraped : Int
  linksFound : Int
  submitted : Int
deriving DecidableEq

/-- ScheduleEntry (part_005 lines 30-34). -/
structure ScheduleEntry where
  feedId : String
  nextRun : Int
  intervalMinutes : Int
deriving DecidableEq

/-- The on-disk shape of the processed-urls collection: either the legacy
bare list of url strings or the canonical list of ProcessedUrl records
(part_005 distinguishes the two by testing typeof processed[0]). -/
inductive RawProcessed where
  | legacy (urls : List String)
  | canonical (entries : List ProcessedUrl)
deriving DecidableEq

/-! ## Durable store operations (part_005, class FileStorage) -/

/-- JS Array.prototype.slice with a negative start: slice(-n) keeps the
last min(n, length) elements. -/
def sliceLast (n : Nat) (l : List α) : List α :=
  l.drop (l.length - n)

/-- The in-memory migration performed at the top of markProcessed
(part_005 lines 351-360): a legacy bare url list becomes records that
all carry the current timestamp; an empty collection becomes the empty
record list; a canonical collection is used as is. -/
def migrateProcessed (now : Int) : RawProcessed → List ProcessedUrl
  | .legacy urls => urls.map (fun u => { url := u, timestamp := now })
  | .canonical ps => ps

/-- FileStorage.isProcessed (part_005 lines 338-346): membership test that
understands both on-disk shapes.  The source performs no write. -/
def isProcessed (raw : RawProcessed) (url : String) : Bool :=
  match raw with
  | .legacy urls => urls.contains url
  | .canonical ps => ps.any (fun p => p.url == url)

/-- isProcessed in state-passing form: the source function calls no
writeJSON, so the stored value is returned unchanged. -/
def isProcessedSt (raw : RawProcessed) (url : String) : Bool × RawProcessed :=
  (isProcessed raw url, raw)

/-- FileStorage.markProcessed (part_005 lines 348-368).  The raw value is
migrated in memory; if the url is already present nothing is written (the
stored value, legacy or not, is left as it was); otherwise the new record
is pushed and the collection is trimmed to its last 1000 entries with
slice(-1000) before being written back. -/
def markProcessed (raw : RawProcessed) (url : String) (now : Int) : RawProcessed :=
  if (migrateProcessed now raw).any (fun p => p.url == url) then raw
  else .canonical (sliceLast 1000 (migrateProcessed now raw ++
    [{ url := url, timestamp := now }]))

/-- The record built by addLog from an InsertLog plus the generated id and
Date.now() timestamp (part_005 lines 284-288). -/
def mkLog (ins : InsertLog) (id : String) (now : Int) : ScrapeLog :=
  { id := id, timestamp := now, level := ins.level, message := ins.message, source := ins.source }

/-- FileStorage.addLog (part_005 lines 282-292): unshift the new entry and
keep only the first 100. -/
def addLog (logs : List ScrapeLog) (ins : InsertLog) (id : String) (now : Int) : List ScrapeLog :=
  (mkLog ins id now :: logs).take 100

/-- The record built by addExtractedItem (part_005 lines 376-381). -/
def mkExtracted (ins : InsertExtractedItem) (id : String) (now : Int) : ExtractedItem :=
  { id := id, feedId := ins.feedId, articleTitle := ins.articleTitle,
    articleUrl := ins.articleUrl, downloadUrl := ins.downloadUrl,
    host := ins.host, timestamp := now, submitted := ins.submitted }

/-- FileStorage.addExtractedItem (part_005 lines 375-386): unshift and keep
only the first 500. -/
def addExtractedItem (items : List ExtractedItem) (ins : InsertExtractedItem)
    (id : String) (now : Int) : List ExtractedItem :=
  (mkExtracted ins id now :: items).take 500

/-- The record built by addGrabbedItem (part_005 lines 404-408). -/
def mkGrabbed (ins : InsertGrabbedItem) (id : String) (now : Int) : GrabbedItem :=
  { id := id, feedId := ins.feedId, feedName := ins.feedName, title := ins.title,
    link := ins.link, pubDate := ins.pubDate, hasDownload := ins.hasDownload,
    timestamp := now }

/-- FileStorage.addGrabbedItem (part_005 lines 403-414): unshift and keep
only the first 500. -/
def addGrabbedItem (items : List GrabbedItem) (ins : InsertGrabbedItem)
    (id : String) (now : Int) : List GrabbedItem :=
  (mkGrabbed ins id now :: items).take 500

/-- Helper for markExtractedItemSubmitted: update the first item whose id
matches, mirroring findIndex followed by a spread replacement at that
index (part_005 lines 390-393); none when findIndex returns -1. -/
def setSubmittedFirst : List ExtractedItem → String → Option (List ExtractedItem)
  | [], _ => none
  | x :: xs, i =>
    if x.id == i then some ({ x with submitted := true } :: xs)
    else (setSubmittedFirst xs i).map (fun l => x :: l)

/-- FileStorage.markExtractedItemSubmitted (part_005 lines 388-396): when
the id is absent return false without writing; otherwise set that item
submitted flag to true and write. -/
def markExtractedItemSubmitted (items : List ExtractedItem) (i : String) :
    Bool × List ExtractedItem :=
  match setSubmittedFirst items i with
  | none => (false, items)
  | some l => (true, l)

/-- FileStorage.setScheduleEntry (part_005 lines 421-430): replace the
first entry with the same feedId (findIndex) or push a new one. -/
def setScheduleEntry : List ScheduleEntry → ScheduleEntry → List ScheduleEntry
  | [], e => [e]
  | s :: rest, e =>
    if s.feedId == e.feedId then e :: rest
    else s :: setScheduleEntry rest e

/-- Number of elements in a raw processed collection (raw.length). -/
def rawLength : RawProcessed → Nat
  | .legacy us => us.length
  | .canonical ps => ps.length

/-- typeof rawProcessed[0] === String, that is, a nonempty legacy array. -/
def isLegacyStrings : RawProcessed → Bool
  | .legacy (_ :: _) => true
  | _ => false

/-- Entries of a canonical collection; a legacy collection has none. -/
def canonEntries : RawProcessed → List ProcessedUrl
  | .canonical ps => ps
  | .legacy _ => []

/-- Count of stored entries whose url field equals the given url. -/
def countUrl (raw : RawProcessed) (u : String) : Nat :=
  match raw with
  | .legacy us => us.count u
  | .canonical ps => ps.countP (fun p => p.url == u)

/-- The no-duplicate-url invariant on a stored processed collection. -/
def noDupUrls : RawProcessed → Prop
  | .legacy us => us.Nodup
  | .canonical ps => (ps.map (fun p => p.url)).Nodup

instance : DecidablePred noDupUrls := by
  intro raw
  cases raw <;> simp [noDupUrls] <;> infer_instance

/-- Result counters of cleanupOldData (part_005 lines 23-28). -/
structure CleanupResult where
  logs : Nat
  extracted : Nat
  grabbed : Nat
  processed : Nat
deriving DecidableEq

/-- cleanupOldData output: the counters together with the stored value of
each collection after the operation. -/
structure CleanupOutcome where
  result : CleanupResult
  logs : List ScrapeLog
  extracted : List ExtractedItem
  grabbed : List GrabbedItem
  processed : RawProcessed
deriving DecidableEq

def msPerDay : Int := 24 * 60 * 60 * 1000

/-- FileStorage.cleanupOldData (part_005 lines 459-512).  cutoffTime is
now minus maxAgeMs; each collection keeps entries with timestamp strictly
greater than the cutoff and a write only happens when something was
removed (or, for processed urls, when the legacy shape was migrated, its
entries being stamped one day older than the cutoff). -/
def cleanupOldData (now maxAgeMs : Int) (logs : List ScrapeLog)
    (extracted : List ExtractedItem) (grabbed : List GrabbedItem)
    (rawProcessed : RawProcessed) : CleanupOutcome :=
  let cutoffTime := now - maxAgeMs
  let freshLogs := logs.filter (fun l => cutoffTime < l.timestamp)
  let nLogs := logs.length - freshLogs.length
  let storedLogs := if 0 < nLogs then freshLogs else logs
  let freshExtracted := extracted.filter (fun i => cutoffTime < i.timestamp)
  let nExtracted := extracted.length - freshExtracted.length
  let storedExtracted := if 0 < nExtracted then freshExtracted else extracted
  let freshGrabbed := grabbed.filter (fun i => cutoffTime < i.timestamp)
  let nGrabbed := grabbed.length - freshGrabbed.length
  let storedGrabbed := if 0 < nGrabbed then freshGrabbed else grabbed
  if rawLength rawProcessed = 0 then
    { result := { logs := nLogs, extracted := nExtracted, grabbed := nGrabbed, processed := 0 },
      logs := storedLogs, extracted := storedExtracted, grabbed := storedGrabbed,
      processed := rawProcessed }
  else
    let oldTimestamp := cutoffTime - msPerDay
    let processed : List ProcessedUrl :=
      match rawProcessed with
      | .legacy us => us.map (fun u => { url := u, timestamp := oldTimestamp })
      | .canonical ps => ps
    let freshProcessed := processed.filter (fun p => cutoffTime < p.timestamp)
    let nProcessed := processed.length - freshProcessed.length
    let storedProcessed :=
      if 0 < nProcessed ∨ isLegacyStrings rawProcessed then
        RawProcessed.canonical freshProcessed
      else rawProcessed
    { result := { logs := nLogs, extracted := nExtracted, grabbed := nGrabbed,
                  processed := nProcessed },
      logs := storedLogs, extracted := storedExtracted, grabbed := storedGrabbed,
      processed := storedProcessed }

/-! ## Scheduler (src/server/scraper.ts) -/

def minuteMs : Int := 60 * 1000

/-- Array.prototype.find over the schedule, as used by the cron tick
(scraper.ts line 356) and modelled after getSchedule().find. -/
def findSchedule (schedule : List ScheduleEntry) (feedId : String) : Option ScheduleEntry :=
  schedule.find? (fun s => s.feedId == feedId)

/-- The per-minute cron tick body (scraper.ts lines 354-363): it invokes
the pipeline only when an entry for the feed exists and now has reached
its nextRun. -/
def tickFires (schedule : List ScheduleEntry) (feedId : String) (now : Int) : Bool :=
  match findSchedule schedule feedId with
  | some e => decide (e.nextRun ≤ now)
  | none => false

/-- The schedule updates a scrapeFeed run performs: at the start of the
run (scraper.ts lines 407-414) the entry is rewritten with nextRun equal
to the start time plus the interval in milliseconds; when the run body
completes without error (lines 575-585) the entry is rewritten again with
nextRun equal to the completion time plus the interval; the error path
skips the second update. -/
def scheduleAfterRun (schedule : List ScheduleEntry) (feedId : String)
    (interval startTime endTime : Int) (success : Bool) : List ScheduleEntry :=
  let atStart := setScheduleEntry schedule
    { feedId := feedId, nextRun := startTime + interval * minuteMs, intervalMinutes := interval }
  if success then
    setScheduleEntry atStart
      { feedId := feedId, nextRun := endTime + interval * minuteMs, intervalMinutes := interval }
  else atStart

/-! ## Single-flight guard (scraper.ts lines 388-420, 596-599)

Each triggered scrapeFeed invocation for one fixed feed id is modelled as
a cooperative task.  The synchronous prologue checks
this.runningFeeds.has(feedId) (line 390) and the global cap (line 396),
then suspends at the await of storage.getFeed (line 401); only after that
await resumes does line 404 add the feed id to runningFeeds.  The finally
block (lines 596-599) removes it again. -/

def MAX_CONCURRENT_FEEDS : Nat := 5

/-- Program counter of one scrapeFeed invocation. -/
inductive TaskPc where
  | start
  | fetching
  | running
  | done
deriving DecidableEq

/-- Shared state: the task program counters, whether runningFeeds contains
the feed id, and the module-level runningFeedCount. -/
structure GuardState where
  pcs : List TaskPc
  runningFeedsHasId : Bool
  runningFeedCount : Nat
deriving DecidableEq

/-- One cooperative step of task i.  From start the guard checks run
synchronously and either skip (done) or suspend at the getFeed await
(fetching); resuming from fetching performs the add and count increment
of lines 404-405 and enters the pipeline body (running); finishing runs
the finally block of lines 596-599. -/
def stepTask (st : GuardState) (i : Nat) : GuardState :=
  match st.pcs[i]? with
  | none => st
  | some pc =>
    match pc with
    | .start =>
      if st.runningFeedsHasId then { st with pcs := st.pcs.set i .done }
      else if MAX_CONCURRENT_FEEDS ≤ st.runningFeedCount then { st with pcs := st.pcs.set i .done }
      else { st with pcs := st.pcs.set i .fetching }
    | .fetching =>
      { st with pcs := st.pcs.set i .running, runningFeedsHasId := true,
                runningFeedCount := st.runningFeedCount + 1 }
    | .running =>
      { st with pcs := st.pcs.set i .done, runningFeedsHasId := false,
                runningFeedCount := st.runningFeedCount - 1 }
    | .done => st

/-- Run a whole interleaving: the schedule lists which task moves next. -/
def runSchedule (st : GuardState) (sched : List Nat) : GuardState :=
  sched.foldl stepTask st

/-! ## Pipeline item processing (scraper.ts lines 509-570) -/

/-- A download link found on an article page. -/
structure DownloadLink where
  url : String
  host : String
deriving DecidableEq

/-- JS String.prototype.includes as used by the preferred-link selection
(scraper.ts lines 532-534). -/
def strIncludes (s needle : String) : Bool :=
  decide (1 < (s.splitOn needle).length)

/-- Outcome of submitToJDownloader (scraper.ts lines 872-928).  The
function never throws: every failure is caught internally. -/
inductive SubmitOutcome where
  | notConfigured
  | connectFailed
  | addOk
  | addFailed
deriving DecidableEq

/-- Mutable pipeline state threaded through one item of the batch. -/
structure PipelineState where
  logs : List ScrapeLog
  stats : Stats
  processed : RawProcessed
  extracted : List ExtractedItem
  grabbed : List GrabbedItem
deriving DecidableEq

/-- submitToJDownloader effects on the store (scraper.ts lines 872-928):
missing credentials or a failed connection only log; a successful
addLinks call logs, increments the submitted counter and marks the
extracted item submitted; a thrown error is caught, resets the connection
and logs.  No outcome propagates an exception to the caller. -/
def submitToJD (logs : List ScrapeLog) (stats : Stats) (extracted : List ExtractedItem)
    (articleTitle : String) (extractedItemId : String) (outcome : SubmitOutcome)
    (logId : String) (now : Int) : List ScrapeLog × Stats × List ExtractedItem :=
  match outcome with
  | .notConfigured =>
    (addLog logs
       { level := "warn",
         message := "MyJDownloader not configured (add MYJD_EMAIL and MYJD_PASSWORD secrets)",
         source := "jdownloader" } logId now, stats, extracted)
  | .connectFailed =>
    (addLog logs
       { level := "error",
         message := "Cannot submit - not connected to MyJDownloader",
         source := "jdownloader" } logId now, stats, extracted)
  | .addOk =>
    (addLog logs
       { level := "success",
         message := "Submitted to JDownloader: " ++ articleTitle,
         source := "jdownloader" } logId now,
     { stats with submitted := stats.submitted + 1 },
     (markExtractedItemSubmitted extracted extractedItemId).2)
  | .addFailed =>
    (addLog logs
       { level := "error",
         message := "Failed to submit to JDownloader",
         source := "jdownloader" } logId now, stats, extracted)

/-- One iteration of the item loop (scraper.ts lines 510-569) for an item
with a link.  The extraction argument is the result of
findDownloadLinksWithRetry: ok with the found links, or error when the
final retry attempt threw.  In the ok case the grabbed item is always
recorded; when links were found the preferred link is chosen (novafile
first, then nfile, then the first link), logged, stored as an extracted
item, the linksFound counter incremented and the link submitted; then the
item url is marked processed.  In the error case the catch block at
lines 562-568 only logs a warning: markProcessed is never reached. -/
def processItem (st : PipelineState) (feedId feedName : String)
    (title : Option String) (link : String) (pubDate : Option String)
    (extraction : Except String (List DownloadLink)) (subOutcome : SubmitOutcome)
    (gid eid lid1 lid2 lid3 : String) (now : Int) : PipelineState :=
  match extraction with
  | .error msg =>
    { st with
      logs := addLog st.logs
        { level := "warn", message := "Failed to process item: " ++ msg,
          source := "grabber" } lid3 now }
  | .ok downloadLinks =>
    let articleTitle := title.getD link
    let hasDownload := decide (0 < downloadLinks.length)
    let st1 :=
      { st with
        grabbed := addGrabbedItem st.grabbed
          { feedId := feedId, feedName := feedName, title := articleTitle, link := link,
            pubDate := pubDate, hasDownload := hasDownload } gid now }
    let st2 :=
      if h : 0 < downloadLinks.length then
        let preferredLink : DownloadLink :=
          match downloadLinks.find? (fun l => strIncludes l.host "novafile") with
          | some l => l
          | none =>
            match downloadLinks.find? (fun l => strIncludes l.host "nfile") with
            | some l => l
            | none => downloadLinks.get ⟨0, h⟩
        let logs1 := addLog st1.logs
          { level := "info",
            message := "Extracted link(s) from: " ++ articleTitle ++ " - using " ++ preferredLink.host,
            source := "grabber" } lid1 now
        let extracted1 := addExtractedItem st1.extracted
          { feedId := feedId, articleTitle := articleTitle, articleUrl := link,
            downloadUrl := preferredLink.url, host := preferredLink.host,
            submitted := false } eid now
        let stats1 := { st1.stats with linksFound := st1.stats.linksFound + 1 }
        let out := submitToJD logs1 stats1 extracted1 articleTitle eid subOutcome lid2 now
        { st1 with logs := out.1, stats := out.2.1, extracted := out.2.2 }
      else st1
    { st2 with processed := markProcessed st2.processed link now }

/-! ## File system model for the atomic write path (part_005 lines 206-234)

A file system maps paths to file contents.  writeJSON performs, in order:
the backup copy (createBackup, lines 108-129, consisting of one copyFile
into the backup directory plus unlinks of pruned old backups), the write
of the serialized value to the fresh temp path file.tmp.timestamp, a
read-back parse of the temp file (no mutation), and finally either the
rename of the temp file over the target or, when the verification threw,
the unlink of the temp file. -/

def Fs : Type := String → Option String

/-- The file system operations writeJSON issues. -/
inductive FsOp where
  | writeFile (p : String) (c : String)
  | copyFile (src dst : String)
  | rename (src dst : String)
  | unlink (p : String)
deriving DecidableEq

def applyOp (fs : Fs) : FsOp → Fs
  | .writeFile p c => fun q => if q = p then some c else fs q
  | .copyFile src dst => fun q => if q = dst then fs src else fs q
  | .rename src dst => fun q => if q = src then none else if q = dst then fs src else fs q
  | .unlink p => fun q => if q = p then none else fs q

def applyOps (fs : Fs) (ops : List FsOp) : Fs :=
  ops.foldl applyOp fs

/-- The temp path built at part_005 line 215. -/
def tempName (file ts : String) : String :=
  file ++ ".tmp." ++ ts

/-- createBackup (part_005 lines 108-129): if the target exists, copy it
to the timestamped backup path and unlink the pruned old backups; if the
target does not exist the catch skips everything. -/
def createBackupOps (fs : Fs) (file backupFile : String) (pruned : List String) : List FsOp :=
  if (fs file).isSome then FsOp.copyFile file backupFile :: pruned.map FsOp.unlink
  else []

/-- The operation sequence of one writeJSON call (part_005 lines 206-234).
verifyOk tells whether the read-back JSON.parse of the temp file
succeeded; on failure the catch unlinks the temp file instead of
renaming it. -/
def writeJSONOps (fs : Fs) (file ts backupFile : String) (pruned : List String)
    (content : String) (verifyOk : Bool) : List FsOp :=
  createBackupOps fs file backupFile pruned
    ++ [FsOp.writeFile (tempName file ts) content]
    ++ (if verifyOk then [FsOp.rename (tempName file ts) file]
        else [FsOp.unlink (tempName file ts)])

/-! ## Read path model (part_005 lines 131-204) -/

/-- Result of the underlying fs.readFile of the live file: the file is
missing (error code ENOENT), the read fails with some other I/O error, or
it yields a content string. -/
inductive ReadRes where
  | enoent
  | ioError
  | content (s : String)
deriving DecidableEq

/-- Result of readJSON as seen by its caller: a value, together with the
content of the backup that was restored over the live file when recovery
ran, or a thrown error. -/
inductive ReadOutput (V : Type) where
  | ok (v : V) (restored : Option String)
  | thrown
deriving DecidableEq

/-- FileStorage.restoreFromBackup (part_005 lines 177-204): try the
backups newest-first (the directory listing filtered to this file is
sorted and reversed, so the list argument here is in that tried order);
the first one that parses is copied over the live file and returned. -/
def restoreFromBackup (parse : String → Option V) : List String → Option (V × String)
  | [] => none
  | b :: rest =>
    match parse b with
    | some v => some (v, b)
    | none => restoreFromBackup parse rest

/-- JS whitespace as trimmed by String.prototype.trim, restricted to the
characters that occur in JSON files: space, tab, newline, carriage
return, form feed and vertical tab. -/
def isJsWhitespace (c : Char) : Bool :=
  c == ' ' || c == '\t' || c == '\n' || c == '\r' || c == '\x0c' || c == '\x0b'

/-- JS String.prototype.trim: strip leading and trailing whitespace. -/
def jsTrim (s : String) : String :=
  String.mk (((s.data.dropWhile isJsWhitespace).reverse.dropWhile isJsWhitespace).reverse)

/-- FileStorage.readJSON (part_005 lines 131-175).  ENOENT yields the
default; any other read error is rethrown (line 172); an empty or
whitespace-only content yields the default without consulting backups
(lines 140-145); otherwise the trimmed content is parsed, and on parse
failure each backup is tried newest-first, the first parsable one being
restored and returned, with the default as last resort. -/
def readJSON (parse : String → Option V) (live : ReadRes) (backups : List String)
    (dflt : V) : ReadOutput V :=
  match live with
  | .enoent => .ok dflt none
  | .ioError => .thrown
  | .content s =>
    let trimmed := jsTrim s
    if trimmed = "" then .ok dflt none
    else
      match parse trimmed with
      | some v => .ok v none
      | none =>
        match restoreFromBackup parse backups with
        | some (v, b) => .ok v (some b)
        | none => .ok dflt none

/-! ## Iterated store operations -/

/-- A sequence of markProcessed calls (url and Date.now() per call). -/
def markProcessedFold (raw : RawProcessed) (inserts : List (String × Int)) : RawProcessed :=
  inserts.foldl (fun s p => markProcessed s p.1 p.2) raw

/-- A sequence of addLog calls (entry, generated id, Date.now() per call). -/
def addLogFold (logs : List ScrapeLog) (entries : List (InsertLog × String × Int)) :
    List ScrapeLog :=
  entries.foldl (fun ls e => addLog ls e.1 e.2.1 e.2.2) logs

/-- A sequence of addExtractedItem calls. -/
def addExtractedFold (items : List ExtractedItem)
    (entries : List (InsertExtractedItem × String × Int)) : List ExtractedItem :=
  entries.foldl (fun acc e => addExtractedItem acc e.1 e.2.1 e.2.2) items

/-- A sequence of addGrabbedItem calls. -/
def addGrabbedFold (items : List GrabbedItem)
    (entries : List (InsertGrabbedItem × String × Int)) : List GrabbedItem :=
  entries.foldl (fun acc e => addGrabbedItem acc e.1 e.2.1 e.2.2) items

/-- An FsOp leaves the given path untouched. -/
def preservesPath (file : String) : FsOp → Prop
  | .writeFile p _ => p ≠ file
  | .copyFile _ dst => dst ≠ file
  | .rename src dst => src ≠ file ∧ dst ≠ file
  | .unlink p => p ≠ file

/-- A sample file system holding one committed target file, used to
exercise the write-path theorem at a concrete input. -/
def fsSample : Fs :=
  fun p => if p = "data/feeds.json" then some "[1]" else none

/-! ## Helper lemmas -/

theorem length_sliceLast_le (n : Nat) (l : List α) : (sliceLast n l).length ≤ n := by
  simp only [sliceLast, List.length_drop]
  omega

theorem sliceLast_sublist (n : Nat) (l : List α) : (sliceLast n l).Sublist l :=
  List.drop_sublist _ _

theorem mem_sliceLast_append (n : Nat) (hn : 0 < n) (l : List α) (e : α) :
    e ∈ sliceLast n (l ++ [e]) := by
  unfold sliceLast
  rw [List.length_append, List.drop_append_of_le_length (by simp; omega)]
  simp

theorem sliceLast_append_one (n : Nat) (hn : 0 < n) (l : List α) (e : α) :
    sliceLast n (sliceLast n l ++ [e]) = sliceLast n (l ++ [e]) := by
  unfold sliceLast
  rcases le_or_lt l.length n with h | h
  · have h0 : l.length - n = 0 := by omega
    simp [h0]
  · have hlen : (l.drop (l.length - n)).length = n := by
      simp only [List.length_drop]; omega
    rw [List.length_append, hlen, List.length_append]
    simp only [List.length_singleton]
    have h1 : n + 1 - n = 1 := by omega
    rw [h1, List.drop_append_of_le_length (by omega),
      List.drop_append_of_le_length (by omega), List.drop_drop]
    have h2 : l.length - n + 1 = l.length + 1 - n := by omega
    rw [h2]

theorem take_append_take (k : Nat) (A B : List α) :
    (A ++ B.take k).take k = (A ++ B).take k := by
  rw [List.take_append_eq_append_take, List.take_append_eq_append_take, List.take_take]
  have : min (k - A.length) k = k - A.length := by omega
  rw [this]

theorem any_map_url (us : List String) (u : String) (t : Int) :
    (us.map (fun x => ({ url := x, timestamp := t } : ProcessedUrl))).any
      (fun p => p.url == u) = us.contains u := by
  induction us with
  | nil => rfl
  | cons x xs ih =>
    simp only [List.map_cons, List.any_cons, ih, List.contains_cons]
    by_cases hx : x = u
    · simp [hx]
    · have h1 : (x == u) = false := by simp [hx]
      have h2 : (u == x) = false := by simp [Ne.symm hx]
      rw [h1, h2]

theorem countP_url_eq_one (ps : List ProcessedUrl) (u : String)
    (hd : (ps.map (fun p => p.url)).Nodup)
    (hm : ps.any (fun p => p.url == u) = true) :
    ps.countP (fun p => p.url == u) = 1 := by
  induction ps with
  | nil => simp at hm
  | cons x xs ih =>
    simp only [List.map_cons, List.nodup_cons] at hd
    simp only [List.any_cons, Bool.or_eq_true] at hm
    rw [List.countP_cons]
    by_cases hx : x.url = u
    · have hz : xs.countP (fun p => p.url == u) = 0 := by
        rw [List.countP_eq_zero]
        intro p hp hpu
        have hpu2 : p.url = u := by rwa [beq_iff_eq] at hpu
        exact hd.1 (List.mem_map.mpr ⟨p, hp, hpu2.trans hx.symm⟩)
      simp [hz, hx]
    · rcases hm with hm | hm
      · rw [beq_iff_eq] at hm
        exact absurd hm hx
      · simp [hx, ih hd.2 hm]

theorem markProcessed_present (ps : List ProcessedUrl) (u : String) (t : Int)
    (h : ps.any (fun p => p.url == u) = true) :
    markProcessed (.canonical ps) u t = .canonical ps := by
  simp [markProcessed, migrateProcessed, h]

theorem markProcessed_canonical_spec (ps : List ProcessedUrl) (u : String) (t : Int)
    (h : (ps.map (fun p => p.url)).Nodup) :
    ∃ qs : List ProcessedUrl,
      markProcessed (.canonical ps) u t = .canonical qs ∧
      (qs.map (fun p => p.url)).Nodup ∧
      qs.any (fun p => p.url == u) = true := by
  by_cases hany : ps.any (fun p => p.url == u) = true
  · exact ⟨ps, markProcessed_present ps u t hany, h, hany⟩
  · have hany2 : ps.any (fun p => p.url == u) = false := eq_false_of_ne_true hany
    refine ⟨sliceLast 1000 (ps ++ [{ url := u, timestamp := t }]), ?_, ?_, ?_⟩
    · simp [markProcessed, migrateProcessed, hany2]
    · have hsub := (sliceLast_sublist 1000 (ps ++ [{ url := u, timestamp := t }])).map
        (fun p => p.url)
      refine List.Nodup.sublist hsub ?_
      rw [List.map_append]
      simp only [List.map_cons, List.map_nil]
      rw [List.nodup_append]
      refine ⟨h, List.nodup_singleton u, ?_⟩
      intro a ha hb
      simp only [List.mem_singleton] at hb
      subst hb
      rcases List.mem_map.mp ha with ⟨p, hp, hpu⟩
      have := (List.any_eq_false.mp hany2) p hp
      simp only [beq_iff_eq] at this
      exact this hpu
    · rw [List.any_eq_true]
      exact ⟨{ url := u, timestamp := t },
        mem_sliceLast_append 1000 (by omega) ps _, by simp⟩

/-- C1: markProcessed is idempotent and keeps the processed-url collection
free of duplicate urls.  For every url and every starting canonical
collection with no duplicate urls, one call leaves exactly one stored
entry with that url, a second call (the url now being present) changes
nothing and still leaves exactly one such entry, and the resulting
collection has no two entries with the same url. -/
theorem markProcessed_idempotent (ps : List ProcessedUrl) (u : String) (t1 t2 : Int)
    (h : (ps.map (fun p => p.url)).Nodup) :
    countUrl (markProcessed (.canonical ps) u t1) u = 1 ∧
    countUrl (markProcessed (markProcessed (.canonical ps) u t1) u t2) u = 1 ∧
    noDupUrls (markProcessed (markProcessed (.canonical ps) u t1) u t2) := by
  rcases markProcessed_canonical_spec ps u t1 h with ⟨qs, h1, hnd, hany⟩
  have h2 : markProcessed (markProcessed (.canonical ps) u t1) u t2 = .canonical qs := by
    rw [h1]
    exact markProcessed_present qs u t2 hany
  have hcount : qs.countP (fun p => p.url == u) = 1 := countP_url_eq_one qs u hnd hany
  refine ⟨?_, ?_, ?_⟩
  · rw [h1]
    exact hcount
  · rw [h2]
    exact hcount
  · rw [h2]
    exact hnd

/-- Witness for C1 at a concrete input. -/
theorem markProcessed_idempotent_witness :
    countUrl (markProcessed (.canonical [{ url := "x", timestamp := 1 }]) "y" 5) "y" = 1 ∧
    countUrl (markProcessed
      (markProcessed (.canonical [{ url := "x", timestamp := 1 }]) "y" 5) "y" 6) "y" = 1 ∧
    noDupUrls (markProcessed
      (markProcessed (.canonical [{ url := "x", timestamp := 1 }]) "y" 5) "y" 6) :=
  markProcessed_idempotent [{ url := "x", timestamp := 1 }] "y" 5 6 (by decide)

theorem setSubmittedFirst_none (items : List ExtractedItem) (i : String)
    (h : ∀ x ∈ items, x.id ≠ i) : setSubmittedFirst items i = none := by
  induction items with
  | nil => rfl
  | cons x xs ih =>
    have hx : (x.id == i) = false := by simp [h x (List.mem_cons_self x xs)]
    simp [setSubmittedFirst, hx, ih (fun y hy => h y (List.mem_cons_of_mem x hy))]

theorem setSubmittedFirst_found (pre : List ExtractedItem) (x : ExtractedItem)
    (post : List ExtractedItem) (i : String) (hx : x.id = i)
    (hpre : ∀ y ∈ pre, y.id ≠ i) :
    setSubmittedFirst (pre ++ x :: post) i =
      some (pre ++ { x with submitted := true } :: post) := by
  induction pre with
  | nil => simp [setSubmittedFirst, hx]
  | cons y ys ih =>
    have hy : (y.id == i) = false := by simp [hpre y (List.mem_cons_self y ys)]
    simp [setSubmittedFirst, hy, ih (fun z hz => hpre z (List.mem_cons_of_mem y hz))]

/-- C10: markExtractedItemSubmitted on an absent id returns false and
leaves the stored collection exactly unchanged (the source returns before
any write); on a present id it returns true and replaces only the first
matching item, with just its submitted field set to true, every other
item and field untouched. -/
theorem markExtractedItemSubmitted_correct (items : List ExtractedItem) (i : String) :
    ((∀ x ∈ items, x.id ≠ i) → markExtractedItemSubmitted items i = (false, items)) ∧
    (∀ pre x post, items = pre ++ x :: post → x.id = i → (∀ y ∈ pre, y.id ≠ i) →
       markExtractedItemSubmitted items i =
         (true, pre ++ { x with submitted := true } :: post)) := by
  constructor
  · intro h
    simp [markExtractedItemSubmitted, setSubmittedFirst_none items i h]
  · intro pre x post heq hx hpre
    subst heq
    simp [markExtractedItemSubmitted, setSubmittedFirst_found pre x post i hx hpre]

/-- Witness for C10 at concrete inputs: one absent id, one present id. -/
theorem markExtractedItemSubmitted_witness :
    markExtractedItemSubmitted
      [{ id := "a", feedId := "f", articleTitle := "t", articleUrl := "u",
         downloadUrl := "d", host := "h", timestamp := 1, submitted := false }] "zz" =
      (false,
       [{ id := "a", feedId := "f", articleTitle := "t", articleUrl := "u",
          downloadUrl := "d", host := "h", timestamp := 1, submitted := false }]) ∧
    markExtractedItemSubmitted
      [{ id := "a", feedId := "f", articleTitle := "t", articleUrl := "u",
         downloadUrl := "d", host := "h", timestamp := 1, submitted := false },
       { id := "b", feedId := "f", articleTitle := "t2", articleUrl := "u2",
         downloadUrl := "d2", host := "h2", timestamp := 2, submitted := false }] "b" =
      (true,
       [{ id := "a", feedId := "f", articleTitle := "t", articleUrl := "u",
          downloadUrl := "d", host := "h", timestamp := 1, submitted := false },
        { id := "b", feedId := "f", articleTitle := "t2", articleUrl := "u2",
          downloadUrl := "d2", host := "h2", timestamp := 2, submitted := true }]) :=
  ⟨(markExtractedItemSubmitted_correct _ "zz").1 (by decide),
   (markExtractedItemSubmitted_correct _ "b").2
     [{ id := "a", feedId := "f", articleTitle := "t", articleUrl := "u",
        downloadUrl := "d", host := "h", timestamp := 1, submitted := false }]
     { id := "b", feedId := "f", articleTitle := "t2", articleUrl := "u2",
       downloadUrl := "d2", host := "h2", timestamp := 2, submitted := false }
     [] rfl rfl (by decide)⟩

theorem cleanup_stored_eq (p : α → Bool) (l : List α) :
    (if 0 < l.length - (l.filter p).length then l.filter p else l) = l.filter p := by
  by_cases h : 0 < l.length - (l.filter p).length
  · simp [h]
  · have hle := l.length_filter_le p
    have hlen : (l.filter p).length = l.length := by omega
    have heq := (List.filter_sublist l).eq_of_length hlen
    simp [h, heq]

theorem cleanupOldData_logs (now maxAgeMs : Int) (logs : List ScrapeLog)
    (extracted : List ExtractedItem) (grabbed : List GrabbedItem) (raw : RawProcessed) :
    (cleanupOldData now maxAgeMs logs extracted grabbed raw).logs
      = logs.filter (fun l => now - maxAgeMs < l.timestamp) := by
  unfold cleanupOldData
  split <;> exact cleanup_stored_eq _ _

theorem cleanupOldData_extracted (now maxAgeMs : Int) (logs : List ScrapeLog)
    (extracted : List ExtractedItem) (grabbed : List GrabbedItem) (raw : RawProcessed) :
    (cleanupOldData now maxAgeMs logs extracted grabbed raw).extracted
      = extracted.filter (fun i => now - maxAgeMs < i.timestamp) := by
  unfold cleanupOldData
  split <;> exact cleanup_stored_eq _ _

theorem cleanupOldData_grabbed (now maxAgeMs : Int) (logs : List ScrapeLog)
    (extracted : List ExtractedItem) (grabbed : List GrabbedItem) (raw : RawProcessed) :
    (cleanupOldData now maxAgeMs logs extracted grabbed raw).grabbed
      = grabbed.filter (fun i => now - maxAgeMs < i.timestamp) := by
  unfold cleanupOldData
  split <;> exact cleanup_stored_eq _ _

theorem cleanupOldData_processed_canonical (now maxAgeMs : Int) (logs : List ScrapeLog)
    (extracted : List ExtractedItem) (grabbed : List GrabbedItem) (ps : List ProcessedUrl) :
    (cleanupOldData now maxAgeMs logs extracted grabbed (.canonical ps)).processed
      = .canonical (ps.filter (fun p => now - maxAgeMs < p.timestamp)) := by
  unfold cleanupOldData
  by_cases hps : ps = []
  · subst hps
    simp [rawLength]
  · have hlen : ¬rawLength (.canonical ps) = 0 := by
      simp [rawLength, List.length_eq_zero, hps]
    rw [if_neg hlen]
    simp only [isLegacyStrings]
    by_cases hn : 0 < ps.length - (ps.filter (fun p => now - maxAgeMs < p.timestamp)).length
    · simp [hn]
    · have hle := ps.length_filter_le (fun p => now - maxAgeMs < p.timestamp)
      have hl2 : (ps.filter (fun p => now - maxAgeMs < p.timestamp)).length = ps.length := by
        omega
      have heq := (List.filter_sublist ps).eq_of_length hl2
      simp [hn, heq]

theorem cleanupOldData_result_logs (now maxAgeMs : Int) (logs : List ScrapeLog)
    (extracted : List ExtractedItem) (grabbed : List GrabbedItem) (raw : RawProcessed) :
    (cleanupOldData now maxAgeMs logs extracted grabbed raw).result.logs
      = logs.length - (logs.filter (fun l => now - maxAgeMs < l.timestamp)).length := by
  unfold cleanupOldData
  split <;> rfl

theorem cleanupOldData_result_extracted (now maxAgeMs : Int) (logs : List ScrapeLog)
    (extracted : List ExtractedItem) (grabbed : List GrabbedItem) (raw : RawProcessed) :
    (cleanupOldData now maxAgeMs logs extracted grabbed raw).result.extracted
      = extracted.length - (extracted.filter (fun i => now - maxAgeMs < i.timestamp)).length := by
  unfold cleanupOldData
  split <;> rfl

theorem cleanupOldData_result_grabbed (now maxAgeMs : Int) (logs : List ScrapeLog)
    (extracted : List ExtractedItem) (grabbed : List GrabbedItem) (raw : RawProcessed) :
    (cleanupOldData now maxAgeMs logs extracted grabbed raw).result.grabbed
      = grabbed.length - (grabbed.filter (fun i => now - maxAgeMs < i.timestamp)).length := by
  unfold cleanupOldData
  split <;> rfl

theorem cleanupOldData_result_processed_canonical (now maxAgeMs : Int)
    (logs : List ScrapeLog) (extracted : List ExtractedItem) (grabbed : List GrabbedItem)
    (ps : List ProcessedUrl) :
    (cleanupOldData now maxAgeMs logs extracted grabbed (.canonical ps)).result.processed
      = ps.length - (ps.filter (fun p => now - maxAgeMs < p.timestamp)).length := by
  unfold cleanupOldData
  by_cases hps : ps = []
  · subst hps
    simp [rawLength]
  · have hlen : ¬rawLength (.canonical ps) = 0 := by
      simp [rawLength, List.length_eq_zero, hps]
    rw [if_neg hlen]

/-- C7 counterexample: with Date.now = 100 and maxAgeMs = 40 the cutoff
time is 60; the log entry with timestamp exactly 60 is not strictly older
than the cutoff (it is at the cutoff), yet cleanupOldData removes it and
counts it as removed, falsifying the claim that exactly the strictly
older entries are removed and entries at or after the cutoff are kept. -/
theorem cleanup_boundary_cex :
    (cleanupOldData 100 40
      [{ id := "a", timestamp := 60, level := "info", message := "m", source := "daemon" }]
      [] [] (.canonical [])).logs = [] ∧
    (cleanupOldData 100 40
      [{ id := "a", timestamp := 60, level := "info", message := "m", source := "daemon" }]
      [] [] (.canonical [])).result.logs = 1 ∧
    ¬(60 : Int) < 100 - 40 := by
  decide

/-- C7 amended: cleanupOldData removes from each of the four collections
exactly the entries whose timestamp is at or before the cutoff time
now - maxAgeMs (equivalently, it keeps exactly those with timestamp
strictly after the cutoff, unchanged and in order), and the per-collection
counters equal the number of removed entries. -/
theorem cleanupOldData_correct (now maxAgeMs : Int) (logs : List ScrapeLog)
    (extracted : List ExtractedItem) (grabbed : List GrabbedItem) (ps : List ProcessedUrl) :
    ((cleanupOldData now maxAgeMs logs extracted grabbed (.canonical ps)).logs.Sublist logs ∧
      ∀ l, l ∈ (cleanupOldData now maxAgeMs logs extracted grabbed (.canonical ps)).logs ↔
        l ∈ logs ∧ now - maxAgeMs < l.timestamp) ∧
    ((cleanupOldData now maxAgeMs logs extracted grabbed (.canonical ps)).extracted.Sublist
        extracted ∧
      ∀ i, i ∈ (cleanupOldData now maxAgeMs logs extracted grabbed (.canonical ps)).extracted ↔
        i ∈ extracted ∧ now - maxAgeMs < i.timestamp) ∧
    ((cleanupOldData now maxAgeMs logs extracted grabbed (.canonical ps)).grabbed.Sublist
        grabbed ∧
      ∀ g, g ∈ (cleanupOldData now maxAgeMs logs extracted grabbed (.canonical ps)).grabbed ↔
        g ∈ grabbed ∧ now - maxAgeMs < g.timestamp) ∧
    ((canonEntries
        (cleanupOldData now maxAgeMs logs extracted grabbed (.canonical ps)).processed).Sublist
        ps ∧
      ∀ p, p ∈ canonEntries
          (cleanupOldData now maxAgeMs logs extracted grabbed (.canonical ps)).processed ↔
        p ∈ ps ∧ now - maxAgeMs < p.timestamp) ∧
    ((cleanupOldData now maxAgeMs logs extracted grabbed (.canonical ps)).result.logs +
        (cleanupOldData now maxAgeMs logs extracted grabbed (.canonical ps)).logs.length =
      logs.length) ∧
    ((cleanupOldData now maxAgeMs logs extracted grabbed (.canonical ps)).result.extracted +
        (cleanupOldData now maxAgeMs logs extracted grabbed (.canonical ps)).extracted.length =
      extracted.length) ∧
    ((cleanupOldData now maxAgeMs logs extracted grabbed (.canonical ps)).result.grabbed +
        (cleanupOldData now maxAgeMs logs extracted grabbed (.canonical ps)).grabbed.length =
      grabbed.length) ∧
    ((cleanupOldData now maxAgeMs logs extracted grabbed (.canonical ps)).result.processed +
        (canonEntries
          (cleanupOldData now maxAgeMs logs extracted grabbed (.canonical ps)).processed).length =
      ps.length) := by
  rw [cleanupOldData_logs, cleanupOldData_extracted, cleanupOldData_grabbed,
    cleanupOldData_processed_canonical, cleanupOldData_result_logs,
    cleanupOldData_result_extracted, cleanupOldData_result_grabbed,
    cleanupOldData_result_processed_canonical]
  simp only [canonEntries]
  refine ⟨⟨List.filter_sublist logs, ?_⟩, ⟨List.filter_sublist extracted, ?_⟩,
    ⟨List.filter_sublist grabbed, ?_⟩, ⟨List.filter_sublist ps, ?_⟩, ?_, ?_, ?_, ?_⟩
  · intro l
    simp [List.mem_filter]
  · intro i
    simp [List.mem_filter]
  · intro g
    simp [List.mem_filter]
  · intro p
    simp [List.mem_filter]
  · have := logs.length_filter_le (fun l => now - maxAgeMs < l.timestamp)
    omega
  · have := extracted.length_filter_le (fun i => now - maxAgeMs < i.timestamp)
    omega
  · have := grabbed.length_filter_le (fun g => now - maxAgeMs < g.timestamp)
    omega
  · have := ps.length_filter_le (fun p => now - maxAgeMs < p.timestamp)
    omega

/-- Witness for C7 at a concrete input: an entry strictly newer than the
cutoff is kept, through the amended theorem. -/
theorem cleanupOldData_correct_witness :
    { id := "a", timestamp := 99, level := "info", message := "m",
      source := "daemon" : ScrapeLog } ∈
      (cleanupOldData 100 40
        [{ id := "a", timestamp := 99, level := "info", message := "m", source := "daemon" }]
        [] [] (.canonical [])).logs :=
  ((cleanupOldData_correct 100 40
      [{ id := "a", timestamp := 99, level := "info", message := "m", source := "daemon" }]
      [] [] []).1.2 _).mpr ⟨List.mem_singleton.mpr rfl, by decide⟩

theorem findSchedule_setScheduleEntry (schedule : List ScheduleEntry) (e : ScheduleEntry) :
    findSchedule (setScheduleEntry schedule e) e.feedId = some e := by
  induction schedule with
  | nil => simp [setScheduleEntry, findSchedule]
  | cons s rest ih =>
    by_cases h : s.feedId = e.feedId
    · simp [setScheduleEntry, findSchedule, h]
    · have hb : (s.feedId == e.feedId) = false := by simp [h]
      simp only [setScheduleEntry, hb, Bool.false_eq_true, if_false]
      simp only [findSchedule, List.find?_cons, hb]
      exact ih

/-- C8 counterexample: a run with interval 1 minute starting at time 0 and
completing successfully at time 5000 persists nextRun = 65000, the
completion time plus the interval, not the run-start time plus the
interval (60000). -/
theorem schedule_nextRun_cex :
    findSchedule (scheduleAfterRun [] "f" 1 0 5000 true) "f" =
      some { feedId := "f", nextRun := 5000 + 1 * minuteMs, intervalMinutes := 1 } ∧
    ¬findSchedule (scheduleAfterRun [] "f" 1 0 5000 true) "f" =
      some { feedId := "f", nextRun := 0 + 1 * minuteMs, intervalMinutes := 1 } := by
  decide

/-- C8 amended: after a successful run the persisted entry has
nextRun = completion time + interval minutes in milliseconds; after a
failed run it keeps the value written at run start, start time + interval;
and in either case a tick strictly before that persisted nextRun does not
invoke the pipeline for the feed. -/
theorem scheduleAfterRun_spec (schedule : List ScheduleEntry) (feedId : String)
    (interval startTime endTime : Int) :
    (findSchedule (scheduleAfterRun schedule feedId interval startTime endTime true) feedId =
      some { feedId := feedId, nextRun := endTime + interval * minuteMs,
             intervalMinutes := interval }) ∧
    (findSchedule (scheduleAfterRun schedule feedId interval startTime endTime false) feedId =
      some { feedId := feedId, nextRun := startTime + interval * minuteMs,
             intervalMinutes := interval }) ∧
    (∀ success now, now < (if success then endTime else startTime) + interval * minuteMs →
      tickFires (scheduleAfterRun schedule feedId interval startTime endTime success)
        feedId now = false) := by
  have htrue :
      findSchedule (scheduleAfterRun schedule feedId interval startTime endTime true) feedId =
        some { feedId := feedId, nextRun := endTime + interval * minuteMs,
               intervalMinutes := interval } :=
    findSchedule_setScheduleEntry _ _
  have hfalse :
      findSchedule (scheduleAfterRun schedule feedId interval startTime endTime false) feedId =
        some { feedId := feedId, nextRun := startTime + interval * minuteMs,
               intervalMinutes := interval } :=
    findSchedule_setScheduleEntry _ _
  refine ⟨htrue, hfalse, ?_⟩
  intro success now hlt
  cases success
  · simp only [Bool.false_eq_true, if_false] at hlt
    unfold tickFires
    rw [hfalse]
    simp only [decide_eq_false_iff_not, not_le]
    omega
  · simp only [if_true] at hlt
    unfold tickFires
    rw [htrue]
    simp only [decide_eq_false_iff_not, not_le]
    omega

/-- Witness for C8 at a concrete input. -/
theorem scheduleAfterRun_spec_witness :
    (findSchedule (scheduleAfterRun [] "f" 2 100 900 true) "f" =
      some { feedId := "f", nextRun := 900 + 2 * minuteMs, intervalMinutes := 2 }) ∧
    tickFires (scheduleAfterRun [] "f" 2 100 900 true) "f" 1000 = false :=
  ⟨(scheduleAfterRun_spec [] "f" 2 100 900).1,
   (scheduleAfterRun_spec [] "f" 2 100 900).2.2 true 1000 (by decide)⟩

theorem cleanupOldData_processed_legacy (now maxAgeMs : Int) (logs : List ScrapeLog)
    (extracted : List ExtractedItem) (grabbed : List GrabbedItem)
    (us : List String) (hne : us ≠ []) :
    (cleanupOldData now maxAgeMs logs extracted grabbed (.legacy us)).processed =
      .canonical [] ∧
    (cleanupOldData now maxAgeMs logs extracted grabbed (.legacy us)).result.processed =
      us.length := by
  have hlenne : ¬rawLength (.legacy us) = 0 := by
    simp [rawLength, List.length_eq_zero, hne]
  have hleg : isLegacyStrings (.legacy us) = true := by
    cases us with
    | nil => exact absurd rfl hne
    | cons a l => rfl
  have hfe : (us.map (fun x =>
      ({ url := x, timestamp := now - maxAgeMs - msPerDay } : ProcessedUrl))).filter
      (fun p => now - maxAgeMs < p.timestamp) = [] := by
    rw [List.filter_eq_nil_iff]
    intro p hp
    rcases List.mem_map.mp hp with ⟨x, hx, hx2⟩
    subst hx2
    simp only [decide_eq_true_eq, not_lt]
    have : (0 : Int) < msPerDay := by decide
    omega
  unfold cleanupOldData
  rw [if_neg hlenne]
  simp only [hleg, hfe]
  constructor
  · simp
  · simp

/-- C9 counterexample: a read of a legacy-shaped processed collection
(isProcessed) answers the membership query from the migrated in-memory
view but performs no write, so the stored shape after the first read is
still the legacy bare string list, not the canonical record shape the
claim says is persisted; a subsequent read still sees the legacy shape. -/
theorem legacy_read_no_persist_cex :
    (isProcessedSt (.legacy ["http://a"]) "http://a").1 = true ∧
    (isProcessedSt (.legacy ["http://a"]) "http://a").2 = .legacy ["http://a"] ∧
    isLegacyStrings (isProcessedSt (.legacy ["http://a"]) "http://a").2 = true := by
  decide

/-- C9 amended: reads handle the legacy shape in memory without persisting
anything; the canonical shape is persisted only by the write paths: a
markProcessed call with a url not yet present migrates every legacy entry
with the current timestamp and writes the canonical shape (a call whose
url is already present writes nothing and leaves the legacy shape), and
cleanupOldData on a nonempty legacy collection stamps every legacy entry
one day older than the cutoff, so all of them are removed and the empty
canonical shape is written, the removed count being the collection size. -/
theorem legacy_migration_on_write (us : List String) (u : String) (now maxAgeMs : Int)
    (logs : List ScrapeLog) (extracted : List ExtractedItem) (grabbed : List GrabbedItem) :
    (isProcessedSt (.legacy us) u = (us.contains u, .legacy us)) ∧
    (us.contains u = false →
      markProcessed (.legacy us) u now =
        .canonical (sliceLast 1000 (us.map (fun x => { url := x, timestamp := now }) ++
          [{ url := u, timestamp := now }]))) ∧
    (us.contains u = true → markProcessed (.legacy us) u now = .legacy us) ∧
    (us ≠ [] →
      (cleanupOldData now maxAgeMs logs extracted grabbed (.legacy us)).processed =
        .canonical [] ∧
      (cleanupOldData now maxAgeMs logs extracted grabbed (.legacy us)).result.processed =
        us.length) := by
  refine ⟨rfl, ?_, ?_, ?_⟩
  · intro h
    simp only [markProcessed, migrateProcessed, any_map_url, h, Bool.false_eq_true, if_false]
  · intro h
    simp only [markProcessed, migrateProcessed, any_map_url, h, if_true]
  · intro hne
    exact cleanupOldData_processed_legacy now maxAgeMs logs extracted grabbed us hne

/-- Witness for C9 at concrete inputs. -/
theorem legacy_migration_on_write_witness :
    (isProcessedSt (.legacy ["a"]) "b" = (["a"].contains "b", .legacy ["a"])) ∧
    (markProcessed (.legacy ["a"]) "b" 7 =
      .canonical (sliceLast 1000 (["a"].map (fun x => { url := x, timestamp := 7 }) ++
        [{ url := "b", timestamp := 7 }]))) ∧
    (markProcessed (.legacy ["a"]) "a" 7 = .legacy ["a"]) ∧
    ((cleanupOldData 100 40 [] [] [] (.legacy ["a"])).processed = .canonical [] ∧
      (cleanupOldData 100 40 [] [] [] (.legacy ["a"])).result.processed =
        (["a"] : List String).length) :=
  ⟨(legacy_migration_on_write ["a"] "b" 7 40 [] [] []).1,
   (legacy_migration_on_write ["a"] "b" 7 40 [] [] []).2.1 (by decide),
   (legacy_migration_on_write ["a"] "a" 7 40 [] [] []).2.2.1 (by decide),
   (legacy_migration_on_write ["a"] "b" 100 40 [] [] []).2.2.2 (by decide)⟩

theorem applyOp_preserves {fs : Fs} {op : FsOp} {file : String} (h : preservesPath file op) :
    applyOp fs op file = fs file := by
  cases op with
  | writeFile p c =>
    show (if file = p then some c else fs file) = fs file
    exact if_neg (fun hh => h hh.symm)
  | copyFile src dst =>
    show (if file = dst then fs src else fs file) = fs file
    exact if_neg (fun hh => h hh.symm)
  | rename src dst =>
    show (if file = src then none else if file = dst then fs src else fs file) = fs file
    rw [if_neg (fun hh => h.1 hh.symm), if_neg (fun hh => h.2 hh.symm)]
  | unlink p =>
    show (if file = p then none else fs file) = fs file
    exact if_neg (fun hh => h hh.symm)

theorem applyOps_preserves {ops : List FsOp} {file : String}
    (h : ∀ op ∈ ops, preservesPath file op) :
    ∀ fs : Fs, applyOps fs ops file = fs file := by
  induction ops with
  | nil =>
    intro fs
    rfl
  | cons op rest ih =>
    intro fs
    have h1 := h op (List.mem_cons_self op rest)
    have h2 : ∀ o ∈ rest, preservesPath file o :=
      fun o ho => h o (List.mem_cons_of_mem op ho)
    calc applyOps fs (op :: rest) file = applyOps (applyOp fs op) rest file := rfl
    _ = (applyOp fs op) file := ih h2 _
    _ = fs file := applyOp_preserves h1

theorem tempName_ne (file ts : String) : tempName file ts ≠ file := by
  intro h
  have hl := congrArg String.length h
  have h5 : (".tmp." : String).length = 5 := rfl
  simp only [tempName, String.length_append, h5] at hl
  omega

/-- C2: the write path of writeJSON is atomic.  The backup copy, the
backup pruning and the temp-file write never touch the target path, so
every strict prefix of the operation sequence (an execution that stops
before the final rename) leaves the target file content exactly as it
was; when the read-back verification succeeds the final rename installs
the new content, and when it fails the unlink path leaves the target
unchanged as well: the rename is the only mutation of the target. -/
theorem writeJSON_atomic (fs : Fs) (file ts backupFile content : String)
    (pruned : List String) (verifyOk : Bool)
    (hb : backupFile ≠ file) (hp : file ∉ pruned) :
    (∀ n, n < (writeJSONOps fs file ts backupFile pruned content verifyOk).length →
      applyOps fs ((writeJSONOps fs file ts backupFile pruned content verifyOk).take n) file
        = fs file) ∧
    (verifyOk = true →
      applyOps fs (writeJSONOps fs file ts backupFile pruned content verifyOk) file
        = some content) ∧
    (verifyOk = false →
      applyOps fs (writeJSONOps fs file ts backupFile pruned content verifyOk) file
        = fs file) := by
  have hA : ∀ op ∈ createBackupOps fs file backupFile pruned, preservesPath file op := by
    intro op hop
    unfold createBackupOps at hop
    by_cases hex : (fs file).isSome
    · rw [if_pos hex] at hop
      rcases List.mem_cons.mp hop with rfl | hop2
      · exact hb
      · rcases List.mem_map.mp hop2 with ⟨p, hpmem, rfl⟩
        exact fun hh => hp (hh ▸ hpmem)
    · rw [if_neg hex] at hop
      exact absurd hop (List.not_mem_nil op)
  have hinit : ∀ op ∈ createBackupOps fs file backupFile pruned ++
      [FsOp.writeFile (tempName file ts) content], preservesPath file op := by
    intro op hop
    rcases List.mem_append.mp hop with hop | hop
    · exact hA op hop
    · rcases List.mem_singleton.mp hop with rfl
      exact tempName_ne file ts
  cases verifyOk with
  | false =>
    have hall : ∀ op ∈ writeJSONOps fs file ts backupFile pruned content false,
        preservesPath file op := by
      intro op hop
      unfold writeJSONOps at hop
      simp only [Bool.false_eq_true, if_false] at hop
      rcases List.mem_append.mp hop with hop | hop
      · exact hinit op hop
      · rcases List.mem_singleton.mp hop with rfl
        exact tempName_ne file ts
    refine ⟨?_, ?_, ?_⟩
    · intro n _
      exact applyOps_preserves
        (fun op ho => hall op ((List.take_sublist n _).subset ho)) fs
    · intro h
      exact absurd h (by decide)
    · intro _
      exact applyOps_preserves hall fs
  | true =>
    have hshape : writeJSONOps fs file ts backupFile pruned content true =
        (createBackupOps fs file backupFile pruned ++
          [FsOp.writeFile (tempName file ts) content]) ++
          [FsOp.rename (tempName file ts) file] := by
      unfold writeJSONOps
      simp [List.append_assoc]
    refine ⟨?_, ?_, ?_⟩
    · intro n hn
      rw [hshape] at hn ⊢
      rw [List.length_append, List.length_singleton] at hn
      rw [List.take_append_of_le_length (by omega)]
      exact applyOps_preserves
        (fun op ho => hinit op ((List.take_sublist n _).subset ho)) fs
    · intro _
      rw [hshape]
      unfold applyOps
      rw [List.foldl_append, List.foldl_append]
      show applyOp (applyOp (List.foldl applyOp fs (createBackupOps fs file backupFile pruned))
        (FsOp.writeFile (tempName file ts) content)) (FsOp.rename (tempName file ts) file) file
        = some content
      show (if file = tempName file ts then none
        else if file = file then
          (applyOp (List.foldl applyOp fs (createBackupOps fs file backupFile pruned))
            (FsOp.writeFile (tempName file ts) content)) (tempName file ts)
        else
          (applyOp (List.foldl applyOp fs (createBackupOps fs file backupFile pruned))
            (FsOp.writeFile (tempName file ts) content)) file) = some content
      rw [if_neg (fun hh => tempName_ne file ts hh.symm), if_pos rfl]
      show (if tempName file ts = tempName file ts then some content
        else List.foldl applyOp fs (createBackupOps fs file backupFile pruned)
          (tempName file ts)) = some content
      rw [if_pos rfl]
    · intro h
      exact absurd h (by decide)

/-- Witness for C2 at a concrete input: a crash after the backup copy and
the temp write (prefix of length 2) leaves the committed target content,
and the completed sequence installs the new content. -/
theorem writeJSON_atomic_witness :
    applyOps fsSample ((writeJSONOps fsSample "data/feeds.json" "17"
        "data/backups/feeds.json.b1.bak" ["data/backups/feeds.json.b0.bak"] "[]" true).take 2)
      "data/feeds.json" = fsSample "data/feeds.json" ∧
    applyOps fsSample (writeJSONOps fsSample "data/feeds.json" "17"
        "data/backups/feeds.json.b1.bak" ["data/backups/feeds.json.b0.bak"] "[]" true)
      "data/feeds.json" = some "[]" :=
  ⟨(writeJSON_atomic fsSample "data/feeds.json" "17" "data/backups/feeds.json.b1.bak" "[]"
      ["data/backups/feeds.json.b0.bak"] true (by decide) (by decide)).1 2 (by decide),
   (writeJSON_atomic fsSample "data/feeds.json" "17" "data/backups/feeds.json.b1.bak" "[]"
      ["data/backups/feeds.json.b0.bak"] true (by decide) (by decide)).2.1 rfl⟩

theorem restoreFromBackup_eq_find (parse : String → Option V) (backups : List String) :
    restoreFromBackup parse backups =
      (backups.find? (fun b => (parse b).isSome)).bind
        (fun b => (parse b).map (fun v => (v, b))) := by
  induction backups with
  | nil => rfl
  | cons b rest ih =>
    cases hpb : parse b with
    | some v => simp [restoreFromBackup, hpb, List.find?_cons]
    | none => simp [restoreFromBackup, hpb, List.find?_cons, ih]

theorem restoreFromBackup_none (parse : String → Option V) (backups : List String)
    (h : ∀ b ∈ backups, parse b = none) : restoreFromBackup parse backups = none := by
  induction backups with
  | nil => rfl
  | cons b rest ih =>
    simp [restoreFromBackup, h b (List.mem_cons_self b rest),
      ih (fun x hx => h x (List.mem_cons_of_mem b hx))]

/-- C3 counterexample: when the underlying read of the live file fails
with an error other than ENOENT (for example a permission error), part_005
line 172 rethrows it, so a read does throw to its caller, falsifying the
claim that a read never throws in all cases. -/
theorem readJSON_ioError_cex :
    readJSON (V := Nat) (fun _ => none) .ioError [] 0 = .thrown := rfl

/-- C3 amended: a missing file yields the default; non-empty unparsable
content is recovered by trying the backups newest-first (the first
parsable backup is restored over the live file and its value returned,
and the default is returned when none parses), and no parse failure ever
throws; empty or whitespace-only content yields the default without
consulting backups; the only read that throws to the caller is an
underlying I/O read error other than file-not-found. -/
theorem readJSON_recovery (V : Type) (parse : String → Option V) (dflt : V) :
    (∀ backups : List String, readJSON parse .enoent backups dflt = .ok dflt none) ∧
    (∀ backups : List String, readJSON parse .ioError backups dflt = .thrown) ∧
    (∀ (s : String) (backups : List String), jsTrim s = "" →
      readJSON parse (.content s) backups dflt = .ok dflt none) ∧
    (∀ (s : String) (backups : List String) (v : V),
      jsTrim s ≠ "" → parse (jsTrim s) = some v →
      readJSON parse (.content s) backups dflt = .ok v none) ∧
    (∀ backups : List String, restoreFromBackup parse backups =
      (backups.find? (fun b => (parse b).isSome)).bind
        (fun b => (parse b).map (fun v => (v, b)))) ∧
    (∀ (s : String) (backups : List String) (v : V) (b : String),
      jsTrim s ≠ "" → parse (jsTrim s) = none →
      restoreFromBackup parse backups = some (v, b) →
      readJSON parse (.content s) backups dflt = .ok v (some b)) ∧
    (∀ (s : String) (backups : List String),
      jsTrim s ≠ "" → parse (jsTrim s) = none → (∀ b ∈ backups, parse b = none) →
      readJSON parse (.content s) backups dflt = .ok dflt none) := by
  refine ⟨fun _ => rfl, fun _ => rfl, ?_, ?_, restoreFromBackup_eq_find parse, ?_, ?_⟩
  · intro s backups h
    simp [readJSON, h]
  · intro s backups v h1 h2
    simp [readJSON, h1, h2]
  · intro s backups v b h1 h2 h3
    simp [readJSON, h1, h2, h3]
  · intro s backups h1 h2 h3
    simp [readJSON, h1, h2, restoreFromBackup_none parse backups h3]

/-- Witness for C3 at concrete inputs: the parse function accepts only the
string good; corrupt live content recovers from the newest parsable
backup, whitespace content falls back to the default, and a non-ENOENT
read error is rethrown. -/
theorem readJSON_recovery_witness :
    readJSON (fun s => if s = "good" then some 7 else none) (.content " junk ")
      ["bad", "good"] 0 = .ok 7 (some "good") ∧
    readJSON (fun s => if s = "good" then some 7 else none) (.content "   ")
      ["good"] 0 = .ok 0 none ∧
    readJSON (fun s => if s = "good" then some (7 : Nat) else none) .ioError [] 0 = .thrown :=
  ⟨(readJSON_recovery Nat (fun s => if s = "good" then some 7 else none) 0).2.2.2.2.2.1
      " junk " ["bad", "good"] 7 "good" (by decide) (by decide) (by decide),
   (readJSON_recovery Nat (fun s => if s = "good" then some 7 else none) 0).2.2.1
      "   " ["good"] (by decide),
   (readJSON_recovery Nat (fun s => if s = "good" then some 7 else none) 0).2.1 []⟩

/-- C4: the single-flight guard is not airtight.  Two scrapeFeed
invocations for the same feed id, interleaved at the suspension point of
the await of storage.getFeed that sits between the runningFeeds.has check
(scraper.ts line 390) and the runningFeeds.add (line 404), both observe
the guard as clear and both enter the pipeline body: after the schedule
task0-check, task1-check, task0-add, task1-add, both tasks are running
concurrently, contradicting the claim (and the comment at line 389).
The guard works as claimed only when the other run is already past its
add: a task that starts while the set contains the feed id is skipped
without reaching the pipeline, as the final conjunct shows. -/
theorem singleFlight_race :
    (runSchedule
      { pcs := [.start, .start], runningFeedsHasId := false, runningFeedCount := 0 }
      [0, 1, 0, 1]).pcs = [.running, .running] ∧
    (runSchedule
      { pcs := [.start, .start], runningFeedsHasId := false, runningFeedCount := 0 }
      [0, 0, 1]).pcs = [.running, .done] := by
  decide

theorem isProcessed_markProcessed (raw : RawProcessed) (u : String) (now : Int) :
    isProcessed (markProcessed raw u now) u = true := by
  unfold markProcessed
  by_cases h : (migrateProcessed now raw).any (fun p => p.url == u) = true
  · rw [h]
    rw [if_pos rfl]
    cases raw with
    | legacy us =>
      show us.contains u = true
      rw [← any_map_url us u now]
      exact h
    | canonical ps => exact h
  · have h2 : (migrateProcessed now raw).any (fun p => p.url == u) = false :=
      eq_false_of_ne_true h
    rw [h2]
    rw [if_neg (by decide : ¬(false = true))]
    rw [isProcessed]
    rw [List.any_eq_true]
    exact ⟨{ url := u, timestamp := now },
      mem_sliceLast_append 1000 (by omega) _ _, by simp⟩

theorem processItem_processed_ok (st : PipelineState) (feedId feedName : String)
    (title : Option String) (link : String) (pubDate : Option String)
    (links : List DownloadLink) (subOutcome : SubmitOutcome)
    (gid eid lid1 lid2 lid3 : String) (now : Int) :
    (processItem st feedId feedName title link pubDate (.ok links) subOutcome
      gid eid lid1 lid2 lid3 now).processed = markProcessed st.processed link now := by
  by_cases h : 0 < links.length
  · simp [processItem, h]
  · simp [processItem, h]

/-- C5 counterexample: a pipeline state with nothing processed and an item
whose link extraction throws (findDownloadLinksWithRetry exhausts its
retries): the catch at scraper.ts lines 562-568 only logs a warning, the
url is never marked processed, so it is a candidate again on the next
poll, falsifying the claim that the url is marked regardless of the
extraction outcome, in particular when extraction failed. -/
theorem processItem_extraction_failure_cex :
    isProcessed (processItem
      { logs := [], stats := { totalScraped := 0, linksFound := 0, submitted := 0 },
        processed := .canonical [], extracted := [], grabbed := [] }
      "f" "Feed" none "http://article" none (.error "Timeout") .addOk
      "g" "e" "l1" "l2" "l3" 9).processed "http://article" = false := by
  decide

/-- C5 amended: when the extraction step returns (with zero or more
links), the item url is marked processed whatever the submission outcome,
including submission failures; but when extraction itself throws, the
item loop catch only logs and the url is left unmarked, to be retried on
the next poll. -/
theorem processItem_forward_progress (st : PipelineState) (feedId feedName : String)
    (title : Option String) (link : String) (pubDate : Option String)
    (links : List DownloadLink) (subOutcome : SubmitOutcome) (msg : String)
    (gid eid lid1 lid2 lid3 : String) (now : Int) :
    isProcessed (processItem st feedId feedName title link pubDate (.ok links) subOutcome
      gid eid lid1 lid2 lid3 now).processed link = true ∧
    (processItem st feedId feedName title link pubDate (.error msg) subOutcome
      gid eid lid1 lid2 lid3 now).processed = st.processed := by
  constructor
  · rw [processItem_processed_ok]
    exact isProcessed_markProcessed st.processed link now
  · rfl

/-- Witness for C5 at a concrete input: zero links found and a failed
submission still mark the url processed; a thrown extraction leaves the
processed set unchanged. -/
theorem processItem_forward_progress_witness :
    isProcessed (processItem
      { logs := [], stats := { totalScraped := 0, linksFound := 0, submitted := 0 },
        processed := .canonical [], extracted := [], grabbed := [] }
      "f" "Feed" none "http://article" none (.ok []) .addFailed
      "g" "e" "l1" "l2" "l3" 9).processed "http://article" = true ∧
    (processItem
      { logs := [], stats := { totalScraped := 0, linksFound := 0, submitted := 0 },
        processed := .canonical [], extracted := [], grabbed := [] }
      "f" "Feed" none "http://article" none (.error "boom") .addFailed
      "g" "e" "l1" "l2" "l3" 9).processed =
      ({ logs := [], stats := { totalScraped := 0, linksFound := 0, submitted := 0 },
         processed := .canonical [], extracted := [], grabbed := [] } :
        PipelineState).processed :=
  ⟨(processItem_forward_progress
      { logs := [], stats := { totalScraped := 0, linksFound := 0, submitted := 0 },
        processed := .canonical [], extracted := [], grabbed := [] }
      "f" "Feed" none "http://article" none [] .addFailed "boom"
      "g" "e" "l1" "l2" "l3" 9).1,
   (processItem_forward_progress
      { logs := [], stats := { totalScraped := 0, linksFound := 0, submitted := 0 },
        processed := .canonical [], extracted := [], grabbed := [] }
      "f" "Feed" none "http://article" none [] .addFailed "boom"
      "g" "e" "l1" "l2" "l3" 9).2⟩

theorem rawLength_markProcessed (raw : RawProcessed) (u : String) (now : Int)
    (h : rawLength raw ≤ 1000) : rawLength (markProcessed raw u now) ≤ 1000 := by
  unfold markProcessed
  split
  · exact h
  · simp only [rawLength]
    exact length_sliceLast_le 1000 _

theorem addLog_length_le (logs : List ScrapeLog) (ins : InsertLog) (id : String) (now : Int) :
    (addLog logs ins id now).length ≤ 100 := by
  simp [addLog]

theorem addExtractedItem_length_le (items : List ExtractedItem) (ins : InsertExtractedItem)
    (id : String) (now : Int) : (addExtractedItem items ins id now).length ≤ 500 := by
  simp [addExtractedItem]

theorem addGrabbedItem_length_le (items : List GrabbedItem) (ins : InsertGrabbedItem)
    (id : String) (now : Int) : (addGrabbedItem items ins id now).length ≤ 500 := by
  simp [addGrabbedItem]

theorem foldPrependTake {α β : Type} (k : Nat) (f : α → β) (entries : List α)
    (acc : List β) (h : acc.length ≤ k) :
    entries.foldl (fun a x => (f x :: a).take k) acc =
      ((entries.map f).reverse ++ acc).take k := by
  induction entries generalizing acc with
  | nil =>
    simp [List.take_of_length_le h]
  | cons e rest ih =>
    show rest.foldl (fun a x => (f x :: a).take k) ((f e :: acc).take k) = _
    rw [ih ((f e :: acc).take k) (by simp [List.length_take])]
    rw [take_append_take]
    congr 1
    simp [List.reverse_cons, List.append_assoc]

theorem addLogFold_spec (entries : List (InsertLog × String × Int)) (logs : List ScrapeLog)
    (h : logs.length ≤ 100) :
    addLogFold logs entries =
      ((entries.map (fun t => mkLog t.1 t.2.1 t.2.2)).reverse ++ logs).take 100 := by
  unfold addLogFold addLog
  exact foldPrependTake 100 (fun t => mkLog t.1 t.2.1 t.2.2) entries logs h

theorem addExtractedFold_spec (entries : List (InsertExtractedItem × String × Int))
    (items : List ExtractedItem) (h : items.length ≤ 500) :
    addExtractedFold items entries =
      ((entries.map (fun t => mkExtracted t.1 t.2.1 t.2.2)).reverse ++ items).take 500 := by
  unfold addExtractedFold addExtractedItem
  exact foldPrependTake 500 (fun t => mkExtracted t.1 t.2.1 t.2.2) entries items h

theorem addGrabbedFold_spec (entries : List (InsertGrabbedItem × String × Int))
    (items : List GrabbedItem) (h : items.length ≤ 500) :
    addGrabbedFold items entries =
      ((entries.map (fun t => mkGrabbed t.1 t.2.1 t.2.2)).reverse ++ items).take 500 := by
  unfold addGrabbedFold addGrabbedItem
  exact foldPrependTake 500 (fun t => mkGrabbed t.1 t.2.1 t.2.2) entries items h

theorem fold_insert_general (inserts : List (String × Int))
    (hn : (inserts.map Prod.fst).Nodup) :
    markProcessedFold (.canonical []) inserts =
      .canonical (sliceLast 1000
        (inserts.map (fun p => { url := p.1, timestamp := p.2 }))) := by
  induction inserts using List.reverseRecOn with
  | nil => rfl
  | append_singleton l a ih =>
    have hsplit := hn
    rw [List.map_append, List.nodup_append] at hsplit
    obtain ⟨h1, _, hdisj⟩ := hsplit
    have ha : a.1 ∉ l.map Prod.fst := by
      intro hmem
      exact hdisj hmem (by simp)
    have hstep : markProcessedFold (.canonical []) (l ++ [a]) =
        markProcessed (markProcessedFold (.canonical []) l) a.1 a.2 := by
      unfold markProcessedFold
      rw [List.foldl_append]
      rfl
    rw [hstep, ih h1]
    have hany : (sliceLast 1000
        (l.map (fun p => ({ url := p.1, timestamp := p.2 } : ProcessedUrl)))).any
        (fun p => p.url == a.1) = false := by
      rw [List.any_eq_false]
      intro x hx
      have hx2 : x ∈ l.map (fun p => ({ url := p.1, timestamp := p.2 } : ProcessedUrl)) :=
        (sliceLast_sublist 1000 _).subset hx
      rcases List.mem_map.mp hx2 with ⟨q, hq, rfl⟩
      simp only [beq_iff_eq]
      intro hqa
      exact ha (hqa ▸ List.mem_map.mpr ⟨q, hq, rfl⟩)
    unfold markProcessed
    simp only [migrateProcessed]
    rw [hany]
    rw [if_neg (by decide : ¬(false = true))]
    rw [sliceLast_append_one 1000 (by omega)]
    rw [List.map_append]
    rfl

/-- C6: retention caps hold after every insert.  markProcessed keeps the
processed collection at or below 1000 entries; a run of distinct inserts
from empty stores exactly the most recently added entries, trimmed to the
last 1000 (oldest evicted first); addLog keeps at most 100 entries and a
run of addLog calls keeps exactly the 100 most recent (newest first);
addExtractedItem and addGrabbedItem keep at most 500, a run of calls
keeping the 500 most recent; in particular 1500 distinct inserted urls
leave exactly the 1000 most recently added (the first 500 evicted) and
600 inserted log entries leave exactly the 100 most recent. -/
theorem retention_caps :
    (∀ (raw : RawProcessed) (url : String) (now : Int), rawLength raw ≤ 1000 →
      rawLength (markProcessed raw url now) ≤ 1000) ∧
    (∀ inserts : List (String × Int), (inserts.map Prod.fst).Nodup →
      markProcessedFold (.canonical []) inserts =
        .canonical (sliceLast 1000
          (inserts.map (fun p => { url := p.1, timestamp := p.2 })))) ∧
    (∀ (logs : List ScrapeLog) (ins : InsertLog) (id : String) (now : Int),
      (addLog logs ins id now).length ≤ 100) ∧
    (∀ entries : List (InsertLog × String × Int),
      addLogFold [] entries =
        ((entries.map (fun t => mkLog t.1 t.2.1 t.2.2)).reverse).take 100) ∧
    (∀ (items : List ExtractedItem) (ins : InsertExtractedItem) (id : String) (now : Int),
      (addExtractedItem items ins id now).length ≤ 500) ∧
    (∀ entries : List (InsertExtractedItem × String × Int),
      addExtractedFold [] entries =
        ((entries.map (fun t => mkExtracted t.1 t.2.1 t.2.2)).reverse).take 500) ∧
    (∀ (items : List GrabbedItem) (ins : InsertGrabbedItem) (id : String) (now : Int),
      (addGrabbedItem items ins id now).length ≤ 500) ∧
    (∀ entries : List (InsertGrabbedItem × String × Int),
      addGrabbedFold [] entries =
        ((entries.map (fun t => mkGrabbed t.1 t.2.1 t.2.2)).reverse).take 500) ∧
    (∀ inserts : List (String × Int), (inserts.map Prod.fst).Nodup →
      inserts.length = 1500 →
      markProcessedFold (.canonical []) inserts =
        .canonical ((inserts.map (fun p => { url := p.1, timestamp := p.2 })).drop 500) ∧
      rawLength (markProcessedFold (.canonical []) inserts) = 1000) ∧
    (∀ entries : List (InsertLog × String × Int), entries.length = 600 →
      addLogFold [] entries =
        ((entries.map (fun t => mkLog t.1 t.2.1 t.2.2)).reverse).take 100 ∧
      (addLogFold [] entries).length = 100) := by
  refine ⟨rawLength_markProcessed, fold_insert_general, addLog_length_le, ?_,
    addExtractedItem_length_le, ?_, addGrabbedItem_length_le, ?_, ?_, ?_⟩
  · intro entries
    rw [addLogFold_spec entries [] (by simp)]
    rw [List.append_nil]
  · intro entries
    rw [addExtractedFold_spec entries [] (by simp)]
    rw [List.append_nil]
  · intro entries
    rw [addGrabbedFold_spec entries [] (by simp)]
    rw [List.append_nil]
  · intro inserts hn hlen
    have heq := fold_insert_general inserts hn
    have hmaplen : (inserts.map
        (fun p => ({ url := p.1, timestamp := p.2 } : ProcessedUrl))).length = 1500 := by
      rw [List.length_map, hlen]
    constructor
    · rw [heq]
      unfold sliceLast
      rw [hmaplen]
    · rw [heq]
      simp only [rawLength]
      unfold sliceLast
      rw [List.length_drop, hmaplen]
  · intro entries hlen
    have heq : addLogFold [] entries =
        ((entries.map (fun t => mkLog t.1 t.2.1 t.2.2)).reverse).take 100 := by
      rw [addLogFold_spec entries [] (by simp), List.append_nil]
    refine ⟨heq, ?_⟩
    rw [heq, List.length_take, List.length_reverse, List.length_map, hlen]
    simp

/-- Witness for C6 at concrete inputs: two distinct inserts from empty,
one log insert, and the general conjuncts instantiated. -/
theorem retention_caps_witness :
    rawLength (markProcessed (.canonical []) "u" 5) ≤ 1000 ∧
    markProcessedFold (.canonical []) [("a", 1), ("b", 2)] =
      .canonical (sliceLast 1000
        ([("a", 1), ("b", 2)].map (fun p => { url := p.1, timestamp := p.2 }))) ∧
    (addLog [] { level := "info", message := "m", source := "daemon" } "i" 3).length ≤ 100 ∧
    addLogFold [] [({ level := "info", message := "m", source := "daemon" }, "i", 3)] =
      (([({ level := "info", message := "m", source := "daemon" }, "i", 3)].map
        (fun t => mkLog t.1 t.2.1 t.2.2)).reverse).take 100 :=
  ⟨retention_caps.1 (.canonical []) "u" 5 (by decide),
   retention_caps.2.1 [("a", 1), ("b", 2)] (by decide),
   retention_caps.2.2.1 [] { level := "info", message := "m", source := "daemon" } "i" 3,
   retention_caps.2.2.2.1 [({ level := "info", message := "m", source := "daemon" }, "i", 3)]⟩

end Maggrab
